import Mathlib

set_option maxHeartbeats 1000000

attribute [local semireducible] Rat.add Rat.mul Rat.inv Rat.sub

/-!
Verification of the ship-data generator (`src/code/data_processing.py`,
function `generate_ship_data`).  The embedding models the core algorithm
over exact rationals: the three reference tables are lists of records,
the pseudo-random uniform sampler and the random row chooser are injected
as explicit function parameters, and the failure modes of the Python code
(pandas `IntCastingNaNError` on a zero grand total, the `ValueError`
raised by `.sample(1)` on an empty selection — the condition the spec
names `PaddingExhaustedError` — and the `NameError` on the unbound
`benefit` local) are surfaced through an `Except` result.
-/

/-- Rounding to the nearest integer with ties to the nearest even integer
(banker's rounding).  This is the behaviour of both `numpy.round` /
pandas `Series.round` (line 44 of the source) and Python 3's built-in
`round` (line 82 of the source). -/
def roundHalfEven (q : ℚ) : ℤ :=
  if q - (⌊q⌋ : ℚ) < 1/2 then ⌊q⌋
  else if 1/2 < q - (⌊q⌋ : ℚ) then ⌊q⌋ + 1
  else if ⌊q⌋ % 2 = 0 then ⌊q⌋ else ⌊q⌋ + 1

/-- Rounding a rational to 2 decimal places, `round(x, 2)` in the source. -/
def round2 (q : ℚ) : ℚ := (roundHalfEven (q * 100) : ℚ) / 100

/-- One row of the Category Counts table
(`Total Accumalted Transits by Market Segment and Lock FY 2024.csv`):
a ship type with its NeoPanamax and Panamax transit counts. -/
structure CategoryRow where
  shipType : String
  neoPanamax : ℚ
  panamax : ℚ
deriving DecidableEq

/-- One row of the Length Ranges table: a (ship type, canal) pair with its
minimal and maximal length. -/
structure RangeRow where
  shipType : String
  canal : String
  minLength : ℚ
  maxLength : ℚ
deriving DecidableEq

/-- One row of the Benefit Factors table: a ship type with its four factor
scores. -/
structure FactorRow where
  shipType : String
  si : ℚ
  ev : ℚ
  cp : ℚ
  ei : ℚ
deriving DecidableEq

/-- One generated record: ship type, canal label, sampled length (rounded
to 2 decimals) and benefit score (rounded to 2 decimals). -/
structure OutputRecord where
  shipType : String
  canal : String
  length : ℚ
  benefit : ℚ
deriving DecidableEq

/-- Failure modes of `generate_ship_data`:
`intCastNaN` models the pandas `IntCastingNaNError` raised by
`.astype(int)` on line 44 when the grand total of the counts table is zero
(so that the proportions are `0/0 = NaN`);
`paddingExhausted` models the `ValueError` raised by `.sample(1)` on
line 156 when the Length Ranges table has no Panamax row (the condition the
spec calls `PaddingExhaustedError`);
`nameErrorBenefit` models the `NameError` raised on line 166 when the local
variable `benefit` was never assigned by the per-category loop. -/
inductive ShipErr where
  | intCastNaN
  | paddingExhausted
  | nameErrorBenefit
deriving DecidableEq

instance {ε α : Type} [DecidableEq ε] [DecidableEq α] : DecidableEq (Except ε α) :=
  fun a b =>
    match a, b with
    | .ok x, .ok y => decidable_of_iff (x = y) (by simp)
    | .error e, .error e' => decidable_of_iff (e = e') (by simp)
    | .ok _, .error _ => isFalse (by simp)
    | .error _, .ok _ => isFalse (by simp)

/-- Default row used to give `List.getD` a junk value at (provably
unreachable) out-of-range indices. -/
def defaultCategory : CategoryRow := ⟨"", 0, 0⟩

/-- Default range row for `List.getD`. -/
def defaultRange : RangeRow := ⟨"", "", 0, 0⟩

/-- Total transits of one category, line 39: `df["NeoPanamax"] + df["Panamax"]`. -/
def totalOf (r : CategoryRow) : ℚ := r.neoPanamax + r.panamax

/-- Grand total over the table, line 40: `df["Total"].sum()`. -/
def totalShips (df : List CategoryRow) : ℚ := (df.map totalOf).sum

/-- Proportion of one category, line 41: `df["Total"] / total_ships`. -/
def proportionOf (df : List CategoryRow) (r : CategoryRow) : ℚ :=
  totalOf r / totalShips df

/-- Provisional integer sample sizes, line 44:
`(df["Proportion"] * sample_size).round().astype(int)`. -/
def provisionalSizes (df : List CategoryRow) (N : ℕ) : List ℤ :=
  df.map (fun r => roundHalfEven (proportionOf df r * N))

/-- Insertion (descending, by the key `p`, stable) used to model
`df["Proportion"].sort_values(ascending=False).index` (line 50). -/
def insertDesc (p : ℕ → ℚ) (i : ℕ) : List ℕ → List ℕ
  | [] => [i]
  | j :: rest => if p j ≤ p i then i :: j :: rest else j :: insertDesc p i rest

/-- Insertion sort (descending by key `p`). -/
def sortDesc (p : ℕ → ℚ) : List ℕ → List ℕ
  | [] => []
  | i :: rest => insertDesc p i (sortDesc p rest)

/-- Row indices ordered by proportion, descending (line 50). -/
def sortedIndices (df : List CategoryRow) : List ℕ :=
  sortDesc (fun i => proportionOf df (df.getD i defaultCategory)) (List.range df.length)

/-- Remainder-correction loop, lines 51–55 of the source: walk the indices
in descending-proportion order, adding `+1` (resp. `-1`) to one entry per
step while the difference is positive (resp. negative). -/
def adjustLoop : List ℕ → ℤ → List ℤ → List ℤ
  | [], _, sizes => sizes
  | i :: rest, d, sizes =>
    if d = 0 then sizes
    else if 0 < d then adjustLoop rest (d - 1) (sizes.set i (sizes.getD i 0 + 1))
    else adjustLoop rest (d + 1) (sizes.set i (sizes.getD i 0 - 1))

/-- Final per-category allocations ("Sample Size" column) after the
remainder correction, lines 44–55.  Meaningful under the precondition
`totalShips df ≠ 0`; the zero-grand-total case makes the Python code raise
before this point and is modelled by the guard in `generate_ship_data`. -/
def allocations (df : List CategoryRow) (N : ℕ) : List ℤ :=
  let sizes := provisionalSizes df N
  adjustLoop (sortedIndices df) ((N : ℤ) - sizes.sum) sizes

/-- Fixed weights, line 62. -/
def weightedScore (f : FactorRow) : ℚ :=
  (1/10) * f.si + (3/10) * f.ev + (2/10) * f.cp + (4/10) * f.ei

/-- Sub-allocation for the NeoPanamax canal, lines 78 and 82:
`int(round(sample_size_type * neo_ratio))` with
`neo_ratio = neo_ships / total_ships_type if total_ships_type > 0 else 0`. -/
def neoSampleSize (r : CategoryRow) (a : ℤ) : ℤ :=
  roundHalfEven ((a : ℚ) * (if 0 < totalOf r then r.neoPanamax / totalOf r else 0))

/-- Sub-allocation for the Panamax canal, lines 83–85: obtained by
subtraction so that the two sub-allocations always sum to the allocation. -/
def panamaxSampleSize (r : CategoryRow) (a : ℤ) : ℤ :=
  a - neoSampleSize r a

/-- First row of the Length Ranges table matching a ship type and canal
(lines 104–110 and 125–131: boolean mask plus `.values[0]`). -/
def findRange (ranges : List RangeRow) (st canal : String) : Option RangeRow :=
  (ranges.filter (fun rr => rr.shipType == st && rr.canal == canal)).head?

/-- First row of the Benefit Factors table matching a ship type
(lines 88–92: boolean mask plus `.iloc[0]`). -/
def findFactors (factors : List FactorRow) (st : String) : Option FactorRow :=
  (factors.filter (fun f => f.shipType == st)).head?

/-- Records produced by one batch draw
`np.random.uniform(low, high, k)` (lines 111–120 / 132–141): the `j`-th
record uses the `(ctr + j)`-th draw of the injected sampler `u`. -/
def emitRecords (u : ℕ → ℚ → ℚ → ℚ) (ctr : ℕ) (k : ℕ) (st canal : String)
    (lo hi b : ℚ) : List OutputRecord :=
  (List.range k).map (fun j =>
    { shipType := st, canal := canal, length := round2 (u (ctr + j) lo hi),
      benefit := round2 b })

/-- One sub-category emission block (lines 102–120 for the NeoPanamax
canal, lines 123–141 for the Panamax canal): if the sub-allocation `k` is
positive and a range row matches, draw `k` uniform lengths and append the
records; a missing range row is a silent miss. -/
def emitStep (ranges : List RangeRow) (u : ℕ → ℚ → ℚ → ℚ)
    (stbase : ℕ × List OutputRecord) (stype canal : String) (k : ℤ)
    (benefit : ℚ) : ℕ × List OutputRecord :=
  if 0 < k then
    match findRange ranges stype canal with
    | some rr =>
      (stbase.1 + k.toNat,
       stbase.2 ++ emitRecords u stbase.1 k.toNat stype canal
         rr.minLength rr.maxLength benefit)
    | none => stbase
  else stbase

/-- Body of the per-category loop, lines 67–141.  The state is
`(draw counter, the Python local "benefit" if it has been assigned,
records so far)`. -/
def processRow (ranges : List RangeRow) (factors : List FactorRow)
    (u : ℕ → ℚ → ℚ → ℚ) (st : ℕ × Option ℚ × List OutputRecord)
    (entry : CategoryRow × ℤ) : ℕ × Option ℚ × List OutputRecord :=
  if entry.2 = 0 then st
  else
    match findFactors factors entry.1.shipType with
    | none => st
    | some f =>
      let st1 := emitStep ranges u (st.1, st.2.2) entry.1.shipType "NeoPanamax"
        (neoSampleSize entry.1 entry.2) (weightedScore f)
      let st2 := emitStep ranges u st1 entry.1.shipType "Panamax"
        (panamaxSampleSize entry.1 entry.2) (weightedScore f)
      (st2.1, some (weightedScore f), st2.2)

/-- The whole per-category loop, folded over the rows paired with their
allocations. -/
def mainLoop (ranges : List RangeRow) (factors : List FactorRow)
    (u : ℕ → ℚ → ℚ → ℚ) (rows : List (CategoryRow × ℤ)) :
    ℕ × Option ℚ × List OutputRecord :=
  rows.foldl (processRow ranges factors u) (0, none, [])

/-- Rows of the Length Ranges table whose canal is the fallback label,
line 154–156: `length_ranges_df[length_ranges_df["Canal"] == "Panamax"]`. -/
def panamaxRanges (ranges : List RangeRow) : List RangeRow :=
  ranges.filter (fun rr => rr.canal == "Panamax")

/-- Padding loop, lines 150–170: add one fallback record per missing unit.
Each iteration first samples a Panamax range row (raising if there is
none — `paddingExhausted`), then reads the Python local `benefit`
(raising `nameErrorBenefit` if it was never assigned). -/
def padLoop (prows : List RangeRow) (benOpt : Option ℚ) (u : ℕ → ℚ → ℚ → ℚ)
    (pick : ℕ → ℕ) : ℕ → ℕ → List OutputRecord → Except ShipErr (List OutputRecord)
  | _, 0, recs => .ok recs
  | ctr, need + 1, recs =>
    if prows = [] then .error .paddingExhausted
    else
      let rr := prows.getD (pick ctr % prows.length) defaultRange
      let len := u ctr rr.minLength rr.maxLength
      match benOpt with
      | none => .error .nameErrorBenefit
      | some b =>
        padLoop prows benOpt u pick (ctr + 1) need
          (recs ++ [{ shipType := "Panamax", canal := "Panamax",
                      length := round2 len, benefit := round2 b }])

/-- The entry point, `generate_ship_data` (lines 6–173), with the three
tables passed in-memory (file loading is plumbing outside the core), the
uniform sampler `u` and the random row chooser `pick` injected.  A
non-empty counts table with a zero grand total makes line 44 of the Python
code raise (`NaN` proportions cast to int), modelled by the leading
guard. -/
def generate_ship_data (N : ℕ) (df : List CategoryRow) (ranges : List RangeRow)
    (factors : List FactorRow) (u : ℕ → ℚ → ℚ → ℚ) (pick : ℕ → ℕ) :
    Except ShipErr (List OutputRecord) :=
  if df ≠ [] ∧ totalShips df = 0 then .error .intCastNaN
  else
    let st := mainLoop ranges factors u (df.zip (allocations df N))
    padLoop (panamaxRanges ranges) st.2.1 u pick st.1 (N - st.2.2.length) st.2.2

/-- Property of a rational of being a whole number of hundredths, i.e. a
value already printed with 2 decimals (the data-model shape of the range
bounds under which rounding to 2 decimals is the identity). -/
def centAligned (q : ℚ) : Prop := ((⌊q * 100⌋ : ℤ) : ℚ) = q * 100

instance (q : ℚ) : Decidable (centAligned q) :=
  decidable_of_iff (((⌊q * 100⌋ : ℤ) : ℚ) = q * 100) Iff.rfl

/-- Property of an output record of lying, after rounding, inside the
`[min, max]` interval of some Length Range row matching its ship type and
canal. -/
def recordInRange (ranges : List RangeRow) (rec : OutputRecord) : Prop :=
  ∃ rr ∈ ranges, rr.shipType = rec.shipType ∧ rr.canal = rec.canal ∧
    rr.minLength ≤ rec.length ∧ rec.length ≤ rr.maxLength

/-- Property of an output record of carrying exactly the benefit score that
the Benefit Factors table assigns to its ship type. -/
def recordBenefitOf (factors : List FactorRow) (rec : OutputRecord) : Prop :=
  ∃ f, findFactors factors rec.shipType = some f ∧
    rec.benefit = round2 (weightedScore f)

/-! ### Facts about banker's rounding -/

theorem floor_frac_nonneg (q : ℚ) : 0 ≤ q - (⌊q⌋ : ℚ) :=
  sub_nonneg.mpr (Int.floor_le q)

theorem floor_frac_lt_one (q : ℚ) : q - (⌊q⌋ : ℚ) < 1 := by
  have h := Int.lt_floor_add_one q
  linarith

theorem roundHalfEven_eq_floor_or (q : ℚ) :
    roundHalfEven q = ⌊q⌋ ∨ roundHalfEven q = ⌊q⌋ + 1 := by
  unfold roundHalfEven
  split_ifs <;> simp

theorem roundHalfEven_le_add_half (q : ℚ) : (roundHalfEven q : ℚ) ≤ q + 1/2 := by
  have h0 := floor_frac_nonneg q
  have h1 := floor_frac_lt_one q
  unfold roundHalfEven
  split_ifs with ha hb hc <;> push_cast <;> linarith

theorem sub_half_le_roundHalfEven (q : ℚ) : q - 1/2 ≤ (roundHalfEven q : ℚ) := by
  have h0 := floor_frac_nonneg q
  have h1 := floor_frac_lt_one q
  unfold roundHalfEven
  split_ifs with ha hb hc <;> push_cast <;> linarith

theorem roundHalfEven_intCast (z : ℤ) : roundHalfEven (z : ℚ) = z := by
  unfold roundHalfEven
  rw [Int.floor_intCast]
  simp

theorem roundHalfEven_nonneg {q : ℚ} (h : 0 ≤ q) : 0 ≤ roundHalfEven q := by
  have h2 := sub_half_le_roundHalfEven q
  have : (-1/2 : ℚ) ≤ (roundHalfEven q : ℚ) := by linarith
  by_contra hneg
  push_neg at hneg
  have : roundHalfEven q ≤ -1 := by omega
  have : (roundHalfEven q : ℚ) ≤ -1 := by exact_mod_cast this
  linarith

theorem roundHalfEven_eq_zero {q : ℚ} (h0 : 0 ≤ q) (h : q ≤ 1/2) :
    roundHalfEven q = 0 := by
  have hfl : ⌊q⌋ = 0 := by
    rw [Int.floor_eq_zero_iff]
    constructor
    · exact h0
    · linarith
  unfold roundHalfEven
  rw [hfl]
  split_ifs with ha hb hc
  · rfl
  · push_cast at hb; linarith
  · rfl
  · simp at hc

theorem one_le_roundHalfEven {q : ℚ} (h : 1/2 < q) : 1 ≤ roundHalfEven q := by
  have h2 := sub_half_le_roundHalfEven q
  have h3 : (0 : ℚ) < (roundHalfEven q : ℚ) := by linarith
  have h4 : 0 < roundHalfEven q := by exact_mod_cast h3
  omega

theorem roundHalfEven_mono {x y : ℚ} (h : x ≤ y) :
    roundHalfEven x ≤ roundHalfEven y := by
  rcases lt_or_eq_of_le (Int.floor_le_floor h) with hf | hf
  · rcases roundHalfEven_eq_floor_or x with hx | hx <;>
      rcases roundHalfEven_eq_floor_or y with hy | hy <;> omega
  · have h0x := floor_frac_nonneg x
    have h0y := floor_frac_nonneg y
    have hxy : x - (⌊x⌋ : ℚ) ≤ y - (⌊y⌋ : ℚ) := by
      rw [hf] at *
      linarith
    unfold roundHalfEven
    rw [hf] at *
    split_ifs with a1 a2 a3 b1 b2 b3 <;> first | omega | (exfalso; linarith)

theorem roundHalfEven_even_of_half {q : ℚ} (h : q - (⌊q⌋ : ℚ) = 1/2) :
    Even (roundHalfEven q) ∧
      (roundHalfEven q = ⌊q⌋ ∨ roundHalfEven q = ⌊q⌋ + 1) := by
  unfold roundHalfEven
  rw [h]
  split_ifs with ha hb
  · linarith
  · exact ⟨Int.even_iff.mpr hb, Or.inl rfl⟩
  · refine ⟨?_, Or.inr rfl⟩
    rcases Int.even_or_odd ⌊q⌋ with he | ho
    · exact absurd (Int.even_iff.mp he) hb
    · exact (Int.even_add_one).mpr (by simpa [Int.odd_iff, Int.even_iff] using ho)

theorem roundHalfEven_le_int {q : ℚ} {a : ℤ} (h : q ≤ (a : ℚ)) :
    roundHalfEven q ≤ a := by
  have := roundHalfEven_mono h
  rwa [roundHalfEven_intCast] at this

theorem abs_roundHalfEven_sub (q : ℚ) : |(roundHalfEven q : ℚ) - q| ≤ 1/2 := by
  have h1 := roundHalfEven_le_add_half q
  have h2 := sub_half_le_roundHalfEven q
  rw [abs_le]
  constructor <;> linarith

theorem round2_mono {x y : ℚ} (h : x ≤ y) : round2 x ≤ round2 y := by
  unfold round2
  have hm : roundHalfEven (x * 100) ≤ roundHalfEven (y * 100) :=
    roundHalfEven_mono (by linarith)
  have : (roundHalfEven (x * 100) : ℚ) ≤ (roundHalfEven (y * 100) : ℚ) := by
    exact_mod_cast hm
  linarith

theorem round2_eq_of_centAligned {q : ℚ} (h : centAligned q) : round2 q = q := by
  unfold round2
  unfold centAligned at h
  rw [← h, roundHalfEven_intCast]
  have : (100 : ℚ) ≠ 0 := by norm_num
  field_simp at h ⊢
  linarith [h]

/-! ### List helpers -/

theorem getD_set_ne (l : List ℤ) (i j : ℕ) (v : ℤ) (h : i ≠ j) :
    (l.set i v).getD j 0 = l.getD j 0 := by
  induction l generalizing i j with
  | nil => simp
  | cons a t ih =>
    cases i with
    | zero =>
      cases j with
      | zero => exact absurd rfl h
      | succ j => simp [List.getD_cons_succ]
    | succ i =>
      cases j with
      | zero => simp
      | succ j => simpa [List.getD_cons_succ] using ih i j (by omega)

theorem sum_set_add (l : List ℤ) (i : ℕ) (x : ℤ) (h : i < l.length) :
    (l.set i (l.getD i 0 + x)).sum = l.sum + x := by
  induction l generalizing i with
  | nil => simp at h
  | cons a t ih =>
    cases i with
    | zero => simp [List.getD_cons_zero]; ring
    | succ i =>
      have := ih i (by simpa using h)
      simp only [List.getD_cons_succ, List.set_cons_succ, List.sum_cons, this]
      ring

theorem getD_nonneg_of_forall (l : List ℤ) (i : ℕ) (h : ∀ a ∈ l, 0 ≤ a) :
    0 ≤ l.getD i 0 := by
  by_cases hi : i < l.length
  · rw [List.getD_eq_getElem l 0 hi]
    exact h _ (List.getElem_mem hi)
  · rw [List.getD_eq_default l 0 (by omega)]

theorem sum_map_sub (l : List ℕ) (f g : ℕ → ℚ) :
    (l.map (fun i => f i - g i)).sum = (l.map f).sum - (l.map g).sum := by
  induction l with
  | nil => simp
  | cons a t ih => simp [ih]; ring

theorem map_range_getD {β : Type} (l : List CategoryRow) (f : CategoryRow → β) :
    (List.range l.length).map (fun i => f (l.getD i defaultCategory)) = l.map f := by
  induction l with
  | nil => simp
  | cons a t ih =>
    rw [List.length_cons, List.range_succ_eq_map, List.map_cons, List.map_map]
    have hcomp :
        ((fun i => f ((a :: t).getD i defaultCategory)) ∘ Nat.succ) =
          (fun i => f (t.getD i defaultCategory)) := by
      funext i
      simp [List.getD_cons_succ]
    rw [List.getD_cons_zero, hcomp, ih, List.map_cons]

theorem sum_toNat_of_nonneg (l : List ℤ) (h : ∀ a ∈ l, 0 ≤ a) :
    (l.map Int.toNat).sum = l.sum.toNat := by
  induction l with
  | nil => simp
  | cons a t ih =>
    have ha : 0 ≤ a := h a (by simp)
    have ht : ∀ b ∈ t, 0 ≤ b := fun b hb => h b (by simp [hb])
    have hts : 0 ≤ t.sum := List.sum_nonneg ht
    simp only [List.map_cons, List.sum_cons, ih ht]
    omega

theorem sum_le_half_count (l : List ℕ) (g : ℕ → ℚ) (P : ℕ → Bool)
    (hb : ∀ i ∈ l, g i ≤ 1/2) (hp : ∀ i ∈ l, 0 < g i → P i = true) :
    (l.map g).sum ≤ (l.countP P : ℚ) * (1/2) := by
  induction l with
  | nil => simp
  | cons a t ih =>
    have hb' : ∀ i ∈ t, g i ≤ 1/2 := fun i hi => hb i (by simp [hi])
    have hp' : ∀ i ∈ t, 0 < g i → P i = true := fun i hi => hp i (by simp [hi])
    have iht := ih hb' hp'
    by_cases hPa : P a = true
    · rw [List.countP_cons_of_pos P t hPa]
      have : g a ≤ 1/2 := hb a (by simp)
      push_cast
      simp only [List.map_cons, List.sum_cons]
      linarith
    · have hga : ¬0 < g a := fun hg => hPa (hp a (by simp) hg)
      rw [List.countP_cons_of_neg P t (by simpa using hPa)]
      simp only [List.map_cons, List.sum_cons]
      push_neg at hga
      linarith

/-! ### Sorting lemmas -/

theorem insertDesc_perm (p : ℕ → ℚ) (i : ℕ) (l : List ℕ) :
    (insertDesc p i l).Perm (i :: l) := by
  induction l with
  | nil => simp [insertDesc]
  | cons j t ih =>
    unfold insertDesc
    split_ifs with h
    · exact List.Perm.refl _
    · exact (ih.cons j).trans (List.Perm.swap i j t)

theorem sortDesc_perm (p : ℕ → ℚ) (l : List ℕ) : (sortDesc p l).Perm l := by
  induction l with
  | nil => simp [sortDesc]
  | cons i t ih => exact (insertDesc_perm p i (sortDesc p t)).trans (ih.cons i)

theorem insertDesc_pairwise (p : ℕ → ℚ) (i : ℕ) (l : List ℕ)
    (h : l.Pairwise (fun a b => p b ≤ p a)) :
    (insertDesc p i l).Pairwise (fun a b => p b ≤ p a) := by
  induction l with
  | nil => simp [insertDesc]
  | cons j t ih =>
    unfold insertDesc
    split_ifs with hle
    · refine List.Pairwise.cons ?_ h
      intro y hy
      rcases List.mem_cons.mp hy with rfl | hyt
      · exact hle
      · exact le_trans (List.rel_of_pairwise_cons h hyt) hle
    · have hij : p i ≤ p j := le_of_lt (lt_of_not_le hle)
      refine List.Pairwise.cons ?_ (ih h.of_cons)
      intro y hy
      have : y ∈ i :: t := (insertDesc_perm p i t).mem_iff.mp hy
      rcases List.mem_cons.mp this with rfl | hyt
      · exact hij
      · exact List.rel_of_pairwise_cons h hyt

theorem sortDesc_pairwise (p : ℕ → ℚ) (l : List ℕ) :
    (sortDesc p l).Pairwise (fun a b => p b ≤ p a) := by
  induction l with
  | nil => simp [sortDesc]
  | cons i t ih => exact insertDesc_pairwise p i (sortDesc p t) ih

theorem sortedIndices_perm (df : List CategoryRow) :
    (sortedIndices df).Perm (List.range df.length) :=
  sortDesc_perm _ _

theorem sortedIndices_nodup (df : List CategoryRow) : (sortedIndices df).Nodup :=
  ((sortedIndices_perm df).nodup_iff).mpr (List.nodup_range _)

/-! ### Remainder-correction loop lemmas -/

theorem adjustLoop_length (idxs : List ℕ) (d : ℤ) (sizes : List ℤ) :
    (adjustLoop idxs d sizes).length = sizes.length := by
  induction idxs generalizing d sizes with
  | nil => rfl
  | cons i rest ih =>
    unfold adjustLoop
    split_ifs with h0 hpos
    · rfl
    · rw [ih, List.length_set]
    · rw [ih, List.length_set]

theorem adjustLoop_sum (idxs : List ℕ) (d : ℤ) (sizes : List ℤ)
    (hd : d.natAbs ≤ idxs.length) (hvalid : ∀ i ∈ idxs, i < sizes.length) :
    (adjustLoop idxs d sizes).sum = sizes.sum + d := by
  induction idxs generalizing d sizes with
  | nil =>
    have : d = 0 := by simpa using hd
    subst this
    simp [adjustLoop]
  | cons i rest ih =>
    unfold adjustLoop
    split_ifs with h0 hpos
    · subst h0; simp
    · have hi : i < sizes.length := hvalid i (by simp)
      have hs := sum_set_add sizes i 1 hi
      have hd' : (d - 1).natAbs ≤ rest.length := by
        simp only [List.length_cons] at hd
        omega
      have hvalid' : ∀ j ∈ rest, j < (sizes.set i (sizes.getD i 0 + 1)).length := by
        intro j hj
        rw [List.length_set]
        exact hvalid j (by simp [hj])
      rw [ih (d - 1) _ hd' hvalid', hs]
      ring
    · have hi : i < sizes.length := hvalid i (by simp)
      have hs : (sizes.set i (sizes.getD i 0 - 1)).sum = sizes.sum + (-1) := by
        have := sum_set_add sizes i (-1) hi
        simpa [sub_eq_add_neg] using this
      have hd' : (d + 1).natAbs ≤ rest.length := by
        simp only [List.length_cons] at hd
        omega
      have hvalid' : ∀ j ∈ rest, j < (sizes.set i (sizes.getD i 0 - 1)).length := by
        intro j hj
        rw [List.length_set]
        exact hvalid j (by simp [hj])
      rw [ih (d + 1) _ hd' hvalid', hs]
      ring

theorem adjustLoop_nonneg_of_nonneg (idxs : List ℕ) (d : ℤ) (sizes : List ℤ)
    (hd : 0 ≤ d) (h : ∀ a ∈ sizes, 0 ≤ a) :
    ∀ a ∈ adjustLoop idxs d sizes, 0 ≤ a := by
  induction idxs generalizing d sizes with
  | nil => simpa [adjustLoop] using h
  | cons i rest ih =>
    unfold adjustLoop
    split_ifs with h0 hpos
    · exact h
    · refine ih (d - 1) _ (by omega) ?_
      intro a ha
      rcases List.mem_or_eq_of_mem_set ha with hmem | rfl
      · exact h a hmem
      · have := getD_nonneg_of_forall sizes i h
        omega
    · omega

theorem adjustLoop_nonneg_of_take (idxs : List ℕ) (d : ℤ) (sizes : List ℤ)
    (hd : d ≤ 0) (hnd : idxs.Nodup) (h : ∀ a ∈ sizes, 0 ≤ a)
    (htake : ∀ i ∈ idxs.take d.natAbs, 1 ≤ sizes.getD i 0) :
    ∀ a ∈ adjustLoop idxs d sizes, 0 ≤ a := by
  induction idxs generalizing d sizes with
  | nil => simpa [adjustLoop] using h
  | cons i rest ih =>
    unfold adjustLoop
    split_ifs with h0 hpos
    · exact h
    · omega
    · have hdneg : d < 0 := lt_of_le_of_ne hd h0
      have hhead : 1 ≤ sizes.getD i 0 := by
        refine htake i ?_
        have : d.natAbs = (d.natAbs - 1) + 1 := by omega
        rw [this, List.take_succ_cons]
        simp
      have h' : ∀ a ∈ sizes.set i (sizes.getD i 0 - 1), 0 ≤ a := by
        intro a ha
        rcases List.mem_or_eq_of_mem_set ha with hmem | rfl
        · exact h a hmem
        · omega
      have hnotin : i ∉ rest := (List.nodup_cons.mp hnd).1
      have htake' : ∀ j ∈ rest.take (d + 1).natAbs,
          1 ≤ (sizes.set i (sizes.getD i 0 - 1)).getD j 0 := by
        intro j hj
        have hji : j ≠ i := by
          intro hji
          subst hji
          exact hnotin (List.take_subset _ _ hj)
        rw [getD_set_ne sizes i j _ (fun hij => hji hij.symm)]
        refine htake j ?_
        have habs : d.natAbs = ((d + 1).natAbs) + 1 := by omega
        rw [habs, List.take_succ_cons]
        exact List.mem_cons_of_mem i hj
      exact ih (d + 1) _ (by omega) (List.nodup_cons.mp hnd).2 h' htake'

/-! ### Allocation-level results -/

theorem provisionalSizes_length (df : List CategoryRow) (N : ℕ) :
    (provisionalSizes df N).length = df.length := by
  simp [provisionalSizes]

theorem sortedIndices_length (df : List CategoryRow) :
    (sortedIndices df).length = df.length := by
  simpa using (sortedIndices_perm df).length_eq

theorem allocations_length (df : List CategoryRow) (N : ℕ) :
    (allocations df N).length = df.length := by
  unfold allocations
  rw [adjustLoop_length, provisionalSizes_length]

theorem mem_sortedIndices_lt (df : List CategoryRow) :
    ∀ i ∈ sortedIndices df, i < df.length := by
  intro i hi
  have := (sortedIndices_perm df).mem_iff.mp hi
  simpa using this

theorem sum_proportions (df : List CategoryRow) (hT : totalShips df ≠ 0) :
    (df.map (fun r => proportionOf df r)).sum = 1 := by
  unfold proportionOf
  simp only [div_eq_mul_inv]
  rw [List.sum_map_mul_right]
  exact mul_inv_cancel₀ hT

theorem sum_weighted_sizes (df : List CategoryRow) (N : ℕ)
    (hT : totalShips df ≠ 0) :
    (df.map (fun r => proportionOf df r * (N : ℚ))).sum = N := by
  rw [List.sum_map_mul_right, sum_proportions df hT, one_mul]

theorem abs_sum_le_length_mul (l : List ℚ) (c : ℚ) (_hc : 0 ≤ c)
    (h : ∀ a ∈ l, |a| ≤ c) : |l.sum| ≤ l.length * c := by
  induction l with
  | nil => simp
  | cons a t ih =>
    have ha : |a| ≤ c := h a (by simp)
    have ht : ∀ b ∈ t, |b| ≤ c := fun b hb => h b (by simp [hb])
    have iht := ih ht
    calc |(a :: t).sum| = |a + t.sum| := by rw [List.sum_cons]
      _ ≤ |a| + |t.sum| := abs_add _ _
      _ ≤ c + t.length * c := by linarith
      _ = (a :: t).length * c := by
          rw [List.length_cons]
          push_cast
          ring

theorem cast_provisional_sum (df : List CategoryRow) (N : ℕ) :
    (((provisionalSizes df N).sum : ℤ) : ℚ) =
      (df.map (fun r => (roundHalfEven (proportionOf df r * N) : ℚ))).sum := by
  unfold provisionalSizes
  rw [Int.cast_list_sum, List.map_map]
  rfl

theorem sum_map_sub_gen {α : Type} (l : List α) (f g : α → ℚ) :
    (l.map (fun i => f i - g i)).sum = (l.map f).sum - (l.map g).sum := by
  induction l with
  | nil => simp
  | cons a t ih => simp [ih]; ring

theorem provisional_diff_bound (df : List CategoryRow) (N : ℕ)
    (hT : totalShips df ≠ 0) :
    ((N : ℤ) - (provisionalSizes df N).sum).natAbs ≤ df.length := by
  have heq :
      ((((N : ℤ) - (provisionalSizes df N).sum) : ℤ) : ℚ) =
        (df.map (fun r =>
          proportionOf df r * (N : ℚ)
            - (roundHalfEven (proportionOf df r * N) : ℚ))).sum := by
    rw [sum_map_sub_gen df (fun r => proportionOf df r * (N : ℚ))
      (fun r => (roundHalfEven (proportionOf df r * N) : ℚ)),
      sum_weighted_sizes df N hT,
      show ((((N : ℤ) - (provisionalSizes df N).sum) : ℤ) : ℚ)
          = (N : ℚ) - (((provisionalSizes df N).sum : ℤ) : ℚ) from by push_cast; ring,
      cast_provisional_sum df N]
  have hbound :
      |(df.map (fun r =>
        proportionOf df r * (N : ℚ)
          - (roundHalfEven (proportionOf df r * N) : ℚ))).sum|
        ≤ df.length * (1/2) := by
    refine abs_sum_le_length_mul _ (1/2) (by norm_num) ?_ |>.trans (by simp)
    intro a ha
    rcases List.mem_map.mp ha with ⟨r, _, rfl⟩
    have h := abs_roundHalfEven_sub (proportionOf df r * N)
    rwa [abs_sub_comm] at h
  have hcast :
      ((((N : ℤ) - (provisionalSizes df N).sum).natAbs : ℕ) : ℚ) =
        |((((N : ℤ) - (provisionalSizes df N).sum) : ℤ) : ℚ)| := by
    rw [Int.cast_natAbs]
    push_cast
    rfl
  have hfin :
      ((((N : ℤ) - (provisionalSizes df N).sum).natAbs : ℕ) : ℚ) ≤ (df.length : ℚ) := by
    rw [hcast, heq]
    have hlen : (0 : ℚ) ≤ df.length := by positivity
    calc |(df.map (fun r =>
          proportionOf df r * (N : ℚ)
            - (roundHalfEven (proportionOf df r * N) : ℚ))).sum|
        ≤ df.length * (1/2) := hbound
      _ ≤ df.length := by linarith
  exact_mod_cast hfin

theorem allocations_sum (df : List CategoryRow) (N : ℕ)
    (hT : totalShips df ≠ 0) : (allocations df N).sum = N := by
  unfold allocations
  rw [adjustLoop_sum]
  · ring
  · rw [sortedIndices_length]
    exact provisional_diff_bound df N hT
  · intro i hi
    rw [provisionalSizes_length]
    exact mem_sortedIndices_lt df i hi

theorem pairwise_take_countP (σ : List ℕ) (key : ℕ → ℚ) (P : ℕ → Bool)
    (hsort : σ.Pairwise (fun a b => key b ≤ key a))
    (hup : ∀ a b, key b ≤ key a → P b = true → P a = true) :
    ∀ i ∈ σ.take (σ.countP P), P i = true := by
  induction σ with
  | nil => simp
  | cons j t ih =>
    by_cases hPj : P j = true
    · rw [List.countP_cons_of_pos P t hPj, List.take_succ_cons]
      intro i hi
      rcases List.mem_cons.mp hi with rfl | hit
      · exact hPj
      · exact ih hsort.of_cons i hit
    · have hall : ∀ y ∈ t, ¬P y = true := by
        intro y hy hPy
        exact hPj (hup j y (List.rel_of_pairwise_cons hsort hy) hPy)
      have ht0 : t.countP P = 0 := List.countP_eq_zero.mpr hall
      rw [List.countP_cons_of_neg P t (by simpa using hPj), ht0]
      simp

theorem provisional_getD (df : List CategoryRow) (N : ℕ) (i : ℕ)
    (hi : i < df.length) :
    (provisionalSizes df N).getD i 0 =
      roundHalfEven (proportionOf df (df.getD i defaultCategory) * N) := by
  unfold provisionalSizes
  rw [List.getD_eq_getElem _ 0 (by simpa using hi), List.getElem_map,
    List.getD_eq_getElem df defaultCategory hi]

theorem allocations_nonneg (df : List CategoryRow) (N : ℕ)
    (hT : totalShips df ≠ 0)
    (hcounts : ∀ r ∈ df, 0 ≤ r.neoPanamax ∧ 0 ≤ r.panamax) :
    ∀ a ∈ allocations df N, 0 ≤ a := by
  have htotal : ∀ r ∈ df, 0 ≤ totalOf r := by
    intro r hr
    have := hcounts r hr
    unfold totalOf
    linarith [this.1, this.2]
  have hTpos : 0 < totalShips df := by
    rcases lt_or_eq_of_le (List.sum_nonneg (by
      intro x hx
      rcases List.mem_map.mp hx with ⟨r, hr, rfl⟩
      exact htotal r hr)) with h | h
    · exact h
    · exact absurd h.symm hT
  have hprop : ∀ r ∈ df, 0 ≤ proportionOf df r := by
    intro r hr
    exact div_nonneg (htotal r hr) (le_of_lt hTpos)
  have hsnn : ∀ a ∈ provisionalSizes df N, 0 ≤ a := by
    intro a ha
    rcases List.mem_map.mp ha with ⟨r, hr, rfl⟩
    exact roundHalfEven_nonneg (mul_nonneg (hprop r hr) (by positivity))
  unfold allocations
  rcases le_or_lt 0 ((N : ℤ) - (provisionalSizes df N).sum) with hd | hd
  · exact adjustLoop_nonneg_of_nonneg _ _ _ hd hsnn
  · -- negative difference: the decremented entries are the largest
    -- proportions, each of which rounded to at least 1
    set key : ℕ → ℚ := fun i => proportionOf df (df.getD i defaultCategory) with hkey
    set x : ℕ → ℚ := fun i => key i * N with hx
    set P : ℕ → Bool := fun i => decide (1/2 < x i) with hP
    set d : ℤ := (N : ℤ) - (provisionalSizes df N).sum with hdd
    have hxnn : ∀ i ∈ List.range df.length, 0 ≤ x i := by
      intro i hi
      have hilen : i < df.length := by simpa using hi
      have : df.getD i defaultCategory ∈ df := by
        rw [List.getD_eq_getElem df defaultCategory hilen]
        exact List.getElem_mem hilen
      exact mul_nonneg (hprop _ this) (by positivity)
    -- sum of rounding excesses equals -d
    have hsumx : ((List.range df.length).map x).sum = N := by
      have h := congrArg List.sum
        (map_range_getD (β := ℚ) df (fun r => proportionOf df r * (N : ℚ)))
      exact Eq.trans h (sum_weighted_sizes df N hT)
    have hsumround :
        ((List.range df.length).map (fun i => (roundHalfEven (x i) : ℚ))).sum =
          (((provisionalSizes df N).sum : ℤ) : ℚ) := by
      rw [cast_provisional_sum df N]
      exact congrArg List.sum (map_range_getD (β := ℚ) df
        (fun r => (roundHalfEven (proportionOf df r * (N : ℚ)) : ℚ)))
    have hg :
        ((List.range df.length).map
          (fun i => (roundHalfEven (x i) : ℚ) - x i)).sum = ((-d : ℤ) : ℚ) := by
      rw [sum_map_sub_gen (List.range df.length)
        (fun i => (roundHalfEven (x i) : ℚ)) x, hsumround, hsumx, hdd]
      push_cast
      ring
    have hgle : ∀ i ∈ List.range df.length,
        (roundHalfEven (x i) : ℚ) - x i ≤ 1/2 := by
      intro i _
      have := roundHalfEven_le_add_half (x i)
      linarith
    have hgpos : ∀ i ∈ List.range df.length,
        0 < (roundHalfEven (x i) : ℚ) - x i → P i = true := by
      intro i hi hpos
      rw [hP]
      simp only [decide_eq_true_eq]
      by_contra hle
      push_neg at hle
      have h0 : roundHalfEven (x i) = 0 := roundHalfEven_eq_zero (hxnn i hi) hle
      rw [h0] at hpos
      have hx0 := hxnn i hi
      have hcast0 : ((0 : ℤ) : ℚ) = 0 := by norm_num
      rw [hcast0] at hpos
      linarith
    have hcount := sum_le_half_count (List.range df.length)
      (fun i => (roundHalfEven (x i) : ℚ) - x i) P hgle hgpos
    rw [hg] at hcount
    -- m ≤ countP
    have hmle : d.natAbs ≤ (List.range df.length).countP P := by
      have h1 : ((d.natAbs : ℕ) : ℚ) = ((-d : ℤ) : ℚ) := by
        rw [Int.cast_natAbs, abs_of_neg hd]
      have h2 : ((d.natAbs : ℕ) : ℚ) ≤ ((List.range df.length).countP P : ℚ) * (1/2) := by
        rw [h1]
        exact hcount
      have h3 : ((d.natAbs : ℕ) : ℚ) ≤ ((List.range df.length).countP P : ℚ) := by
        have : (0 : ℚ) ≤ ((List.range df.length).countP P : ℚ) := by positivity
        linarith
      exact_mod_cast h3
    have hcount_eq : (sortedIndices df).countP P = (List.range df.length).countP P :=
      (sortedIndices_perm df).countP_eq P
    -- every index in the decremented prefix has provisional size at least one
    have htake : ∀ i ∈ (sortedIndices df).take d.natAbs,
        1 ≤ (provisionalSizes df N).getD i 0 := by
      intro i hi
      have hsub : i ∈ (sortedIndices df).take ((sortedIndices df).countP P) := by
        have hmin : d.natAbs ⊓ ((sortedIndices df).countP P) = d.natAbs := by
          rw [hcount_eq]
          exact min_eq_left hmle
        have : (sortedIndices df).take d.natAbs =
            ((sortedIndices df).take ((sortedIndices df).countP P)).take d.natAbs := by
          rw [List.take_take, hmin]
        rw [this] at hi
        exact List.take_subset _ _ hi
      have hPi : P i = true := by
        refine pairwise_take_countP (sortedIndices df) key P ?_ ?_ i hsub
        · exact sortDesc_pairwise _ _
        · intro a b hab hPb
          rw [hP] at hPb ⊢
          simp only [decide_eq_true_eq] at hPb ⊢
          have : x b ≤ x a := by
            rw [hx]
            exact mul_le_mul_of_nonneg_right hab (by positivity)
          linarith
      have hxi : 1/2 < x i := by
        rw [hP] at hPi
        simpa using hPi
      have hilen : i < df.length :=
        mem_sortedIndices_lt df i (List.take_subset _ _ hi)
      rw [provisional_getD df N i hilen]
      exact one_le_roundHalfEven hxi
    exact adjustLoop_nonneg_of_take (sortedIndices df) d (provisionalSizes df N)
      (le_of_lt hd) (sortedIndices_nodup df) hsnn htake

/-! ### Sub-stratifier bounds -/

theorem neoSampleSize_nonneg_le (r : CategoryRow) (a : ℤ) (ha : 0 ≤ a)
    (hneo : 0 ≤ r.neoPanamax) (hpan : 0 ≤ r.panamax) :
    0 ≤ neoSampleSize r a ∧ neoSampleSize r a ≤ a := by
  unfold neoSampleSize
  have hratio0 : (0 : ℚ) ≤ (if 0 < totalOf r then r.neoPanamax / totalOf r else 0) := by
    split_ifs with h
    · exact div_nonneg hneo (le_of_lt h)
    · exact le_refl 0
  have hratio1 : (if 0 < totalOf r then r.neoPanamax / totalOf r else 0) ≤ 1 := by
    split_ifs with h
    · rw [div_le_one h]
      unfold totalOf
      linarith
    · norm_num
  have haq : (0 : ℚ) ≤ (a : ℚ) := by exact_mod_cast ha
  have hx0 : (0 : ℚ) ≤ (a : ℚ) * (if 0 < totalOf r then r.neoPanamax / totalOf r else 0) :=
    mul_nonneg haq hratio0
  have hxa : (a : ℚ) * (if 0 < totalOf r then r.neoPanamax / totalOf r else 0) ≤ (a : ℚ) := by
    calc (a : ℚ) * (if 0 < totalOf r then r.neoPanamax / totalOf r else 0)
        ≤ (a : ℚ) * 1 := mul_le_mul_of_nonneg_left hratio1 haq
      _ = (a : ℚ) := mul_one _
  exact ⟨roundHalfEven_nonneg hx0, roundHalfEven_le_int hxa⟩

/-! ### Per-category loop lemmas -/

theorem emitRecords_length (u : ℕ → ℚ → ℚ → ℚ) (ctr k : ℕ) (st canal : String)
    (lo hi b : ℚ) : (emitRecords u ctr k st canal lo hi b).length = k := by
  simp [emitRecords]

theorem emitRecords_mem (u : ℕ → ℚ → ℚ → ℚ) (ctr k : ℕ) (st canal : String)
    (lo hi b : ℚ) (rec : OutputRecord)
    (h : rec ∈ emitRecords u ctr k st canal lo hi b) :
    rec.shipType = st ∧ rec.canal = canal ∧
      (∃ j, rec.length = round2 (u (ctr + j) lo hi)) ∧ rec.benefit = round2 b := by
  unfold emitRecords at h
  rcases List.mem_map.mp h with ⟨j, _, rfl⟩
  exact ⟨rfl, rfl, ⟨j, rfl⟩, rfl⟩

theorem findRange_mem (ranges : List RangeRow) (st canal : String) (rr : RangeRow)
    (h : findRange ranges st canal = some rr) :
    rr ∈ ranges ∧ rr.shipType = st ∧ rr.canal = canal := by
  unfold findRange at h
  have hmem := List.mem_of_mem_head? h
  have := List.mem_filter.mp hmem
  refine ⟨this.1, ?_, ?_⟩
  · have hb := this.2
    simp only [Bool.and_eq_true, beq_iff_eq] at hb
    exact hb.1
  · have hb := this.2
    simp only [Bool.and_eq_true, beq_iff_eq] at hb
    exact hb.2

theorem emitStep_length (ranges : List RangeRow) (u : ℕ → ℚ → ℚ → ℚ)
    (stbase : ℕ × List OutputRecord) (stype canal : String) (k : ℤ) (b : ℚ) :
    (emitStep ranges u stbase stype canal k b).2.length ≤
      stbase.2.length + k.toNat := by
  unfold emitStep
  split_ifs with hk
  · cases hr : findRange ranges stype canal with
    | none => simp
    | some rr => simp [emitRecords_length]
  · simp

theorem emitStep_mem (ranges : List RangeRow) (u : ℕ → ℚ → ℚ → ℚ)
    (stbase : ℕ × List OutputRecord) (stype canal : String) (k : ℤ) (b : ℚ)
    (rec : OutputRecord) (h : rec ∈ (emitStep ranges u stbase stype canal k b).2) :
    rec ∈ stbase.2 ∨
      ∃ rr, findRange ranges stype canal = some rr ∧
        rec ∈ emitRecords u stbase.1 k.toNat stype canal
          rr.minLength rr.maxLength b := by
  unfold emitStep at h
  split_ifs at h with hk
  · cases hr : findRange ranges stype canal with
    | none =>
      rw [hr] at h
      exact Or.inl h
    | some rr =>
      rw [hr] at h
      rcases List.mem_append.mp h with hold | hnew
      · exact Or.inl hold
      · exact Or.inr ⟨rr, rfl, hnew⟩
  · exact Or.inl h

theorem processRow_length_le (ranges : List RangeRow) (factors : List FactorRow)
    (u : ℕ → ℚ → ℚ → ℚ) (st : ℕ × Option ℚ × List OutputRecord)
    (entry : CategoryRow × ℤ) (ha : 0 ≤ entry.2)
    (hneo : 0 ≤ entry.1.neoPanamax) (hpan : 0 ≤ entry.1.panamax) :
    (processRow ranges factors u st entry).2.2.length ≤
      st.2.2.length + entry.2.toNat := by
  obtain ⟨hn0, hna⟩ := neoSampleSize_nonneg_le entry.1 entry.2 ha hneo hpan
  have hsum : neoSampleSize entry.1 entry.2 + panamaxSampleSize entry.1 entry.2
      = entry.2 := by
    unfold panamaxSampleSize
    ring
  unfold processRow
  split_ifs with h0
  · omega
  · cases hf : findFactors factors entry.1.shipType with
    | none => simp
    | some f =>
      simp only []
      have h1 := emitStep_length ranges u (st.1, st.2.2) entry.1.shipType
        "NeoPanamax" (neoSampleSize entry.1 entry.2) (weightedScore f)
      have h2 := emitStep_length ranges u
        (emitStep ranges u (st.1, st.2.2) entry.1.shipType "NeoPanamax"
          (neoSampleSize entry.1 entry.2) (weightedScore f))
        entry.1.shipType "Panamax" (panamaxSampleSize entry.1 entry.2)
        (weightedScore f)
      simp only at h1 h2
      omega

theorem processRow_inv (ranges : List RangeRow) (factors : List FactorRow)
    (u : ℕ → ℚ → ℚ → ℚ) (Q : OutputRecord → Prop)
    (hemit : ∀ (f : FactorRow) (canal : String) (rr : RangeRow) (ctr k : ℕ)
      (stype : String) (rec : OutputRecord),
      findFactors factors stype = some f →
      findRange ranges stype canal = some rr →
      rec ∈ emitRecords u ctr k stype canal rr.minLength rr.maxLength
        (weightedScore f) → Q rec)
    (st : ℕ × Option ℚ × List OutputRecord) (entry : CategoryRow × ℤ)
    (hst : ∀ rec ∈ st.2.2, Q rec) :
    ∀ rec ∈ (processRow ranges factors u st entry).2.2, Q rec := by
  unfold processRow
  split_ifs with h0
  · exact hst
  · cases hf : findFactors factors entry.1.shipType with
    | none => exact hst
    | some f =>
      intro rec hrec
      simp only [] at hrec
      rcases emitStep_mem ranges u _ entry.1.shipType "Panamax"
        (panamaxSampleSize entry.1 entry.2) (weightedScore f) rec hrec with
        hinner | ⟨rr, hfr, hin⟩
      · rcases emitStep_mem ranges u (st.1, st.2.2) entry.1.shipType "NeoPanamax"
          (neoSampleSize entry.1 entry.2) (weightedScore f) rec hinner with
          hbase | ⟨rr1, hfr1, hin1⟩
        · exact hst rec hbase
        · exact hemit f "NeoPanamax" rr1 _ _ entry.1.shipType rec hf hfr1 hin1
      · exact hemit f "Panamax" rr _ _ entry.1.shipType rec hf hfr hin

theorem mainLoop_inv (ranges : List RangeRow) (factors : List FactorRow)
    (u : ℕ → ℚ → ℚ → ℚ) (Q : OutputRecord → Prop)
    (hemit : ∀ (f : FactorRow) (canal : String) (rr : RangeRow) (ctr k : ℕ)
      (stype : String) (rec : OutputRecord),
      findFactors factors stype = some f →
      findRange ranges stype canal = some rr →
      rec ∈ emitRecords u ctr k stype canal rr.minLength rr.maxLength
        (weightedScore f) → Q rec)
    (rows : List (CategoryRow × ℤ)) :
    ∀ rec ∈ (mainLoop ranges factors u rows).2.2, Q rec := by
  unfold mainLoop
  have hgen : ∀ (rows : List (CategoryRow × ℤ))
      (st : ℕ × Option ℚ × List OutputRecord),
      (∀ rec ∈ st.2.2, Q rec) →
      ∀ rec ∈ (rows.foldl (processRow ranges factors u) st).2.2, Q rec := by
    intro rows
    induction rows with
    | nil => intro st hst; simpa using hst
    | cons e t ih =>
      intro st hst
      rw [List.foldl_cons]
      exact ih _ (processRow_inv ranges factors u Q hemit st e hst)
  exact hgen rows (0, none, []) (by simp)

theorem mainLoop_length_le (ranges : List RangeRow) (factors : List FactorRow)
    (u : ℕ → ℚ → ℚ → ℚ) (rows : List (CategoryRow × ℤ))
    (h : ∀ e ∈ rows, 0 ≤ e.1.neoPanamax ∧ 0 ≤ e.1.panamax ∧ 0 ≤ e.2) :
    (mainLoop ranges factors u rows).2.2.length ≤
      (rows.map (fun e => e.2.toNat)).sum := by
  unfold mainLoop
  have hgen : ∀ (rows : List (CategoryRow × ℤ))
      (st : ℕ × Option ℚ × List OutputRecord),
      (∀ e ∈ rows, 0 ≤ e.1.neoPanamax ∧ 0 ≤ e.1.panamax ∧ 0 ≤ e.2) →
      (rows.foldl (processRow ranges factors u) st).2.2.length ≤
        st.2.2.length + (rows.map (fun e => e.2.toNat)).sum := by
    intro rows
    induction rows with
    | nil => intro st _; simp
    | cons e t ih =>
      intro st hrows
      rw [List.foldl_cons]
      have he := hrows e (by simp)
      have h1 := processRow_length_le ranges factors u st e he.2.2 he.1 he.2.1
      have h2 := ih (processRow ranges factors u st e)
        (fun x hx => hrows x (by simp [hx]))
      simp only [List.map_cons, List.sum_cons]
      omega
  simpa using hgen rows (0, none, []) h

/-! ### Padding-loop lemmas -/

theorem padLoop_ok_length (prows : List RangeRow) (benOpt : Option ℚ)
    (u : ℕ → ℚ → ℚ → ℚ) (pick : ℕ → ℕ) :
    ∀ (need ctr : ℕ) (recs res : List OutputRecord),
      padLoop prows benOpt u pick ctr need recs = .ok res →
      res.length = recs.length + need := by
  intro need
  induction need with
  | zero =>
    intro ctr recs res h
    unfold padLoop at h
    cases h
    simp
  | succ n ih =>
    intro ctr recs res h
    unfold padLoop at h
    by_cases hpr : prows = []
    · rw [if_pos hpr] at h
      exact absurd h (by simp)
    · rw [if_neg hpr] at h
      cases benOpt with
      | none =>
        have hcontra : (Except.error ShipErr.nameErrorBenefit :
            Except ShipErr (List OutputRecord)) = Except.ok res := h
        exact absurd hcontra (by simp)
      | some b =>
        dsimp only at h
        have hlen := ih (ctr + 1) _ res h
        rw [hlen]
        simp only [List.length_append, List.length_cons, List.length_nil]
        omega

theorem padLoop_empty_err (benOpt : Option ℚ) (u : ℕ → ℚ → ℚ → ℚ)
    (pick : ℕ → ℕ) (ctr need : ℕ) (recs : List OutputRecord) (hne : need ≠ 0) :
    padLoop [] benOpt u pick ctr need recs = .error .paddingExhausted := by
  cases need with
  | zero => exact absurd rfl hne
  | succ n =>
    unfold padLoop
    simp

theorem padLoop_none_err (prows : List RangeRow) (u : ℕ → ℚ → ℚ → ℚ)
    (pick : ℕ → ℕ) (ctr need : ℕ) (recs : List OutputRecord)
    (hne : need ≠ 0) (hpr : prows ≠ []) :
    padLoop prows none u pick ctr need recs = .error .nameErrorBenefit := by
  cases need with
  | zero => exact absurd rfl hne
  | succ n =>
    unfold padLoop
    rw [if_neg hpr]

/-! ### Entry-point lemmas -/

theorem zip_toNat_sum (df : List CategoryRow) (allocs : List ℤ)
    (hlen : allocs.length = df.length) :
    ((df.zip allocs).map (fun e => e.2.toNat)).sum = (allocs.map Int.toNat).sum := by
  have hmap : (df.zip allocs).map (fun e => e.2.toNat)
      = ((df.zip allocs).map Prod.snd).map Int.toNat := by
    rw [List.map_map]
    rfl
  rw [hmap, List.map_snd_zip df allocs (by omega)]

theorem generate_ok_length (N : ℕ) (df : List CategoryRow)
    (ranges : List RangeRow) (factors : List FactorRow)
    (u : ℕ → ℚ → ℚ → ℚ) (pick : ℕ → ℕ) (res : List OutputRecord)
    (hcounts : ∀ r ∈ df, 0 ≤ r.neoPanamax ∧ 0 ≤ r.panamax)
    (hres : generate_ship_data N df ranges factors u pick = .ok res) :
    res.length = N := by
  unfold generate_ship_data at hres
  by_cases hg : df ≠ [] ∧ totalShips df = 0
  · rw [if_pos hg] at hres
    exact absurd hres (by simp)
  · rw [if_neg hg] at hres
    dsimp only at hres
    have hpad := padLoop_ok_length (panamaxRanges ranges)
      (mainLoop ranges factors u (df.zip (allocations df N))).2.1 u pick
      (N - (mainLoop ranges factors u (df.zip (allocations df N))).2.2.length)
      (mainLoop ranges factors u (df.zip (allocations df N))).1
      (mainLoop ranges factors u (df.zip (allocations df N))).2.2 res hres
    have hlen : (mainLoop ranges factors u (df.zip (allocations df N))).2.2.length ≤ N := by
      by_cases hdf : df = []
      · subst hdf
        simp [mainLoop]
      · have hT : totalShips df ≠ 0 := by
          intro h0
          exact hg ⟨hdf, h0⟩
        have hz : ∀ e ∈ df.zip (allocations df N),
            0 ≤ e.1.neoPanamax ∧ 0 ≤ e.1.panamax ∧ 0 ≤ e.2 := by
          intro e he
          have hmem := List.of_mem_zip he
          have hc := hcounts e.1 hmem.1
          have ha := allocations_nonneg df N hT hcounts e.2 hmem.2
          exact ⟨hc.1, hc.2, ha⟩
        have h1 := mainLoop_length_le ranges factors u (df.zip (allocations df N)) hz
        have h2 := zip_toNat_sum df (allocations df N) (allocations_length df N)
        have h3 := sum_toNat_of_nonneg (allocations df N)
          (allocations_nonneg df N hT hcounts)
        have h4 := allocations_sum df N hT
        rw [h2, h3, h4] at h1
        simpa using h1
    omega

theorem generate_padding_exhausted (N : ℕ) (df : List CategoryRow)
    (ranges : List RangeRow) (factors : List FactorRow)
    (u : ℕ → ℚ → ℚ → ℚ) (pick : ℕ → ℕ)
    (hguard : ¬(df ≠ [] ∧ totalShips df = 0))
    (hno : panamaxRanges ranges = [])
    (hshort : (mainLoop ranges factors u (df.zip (allocations df N))).2.2.length < N) :
    generate_ship_data N df ranges factors u pick = .error .paddingExhausted := by
  unfold generate_ship_data
  rw [if_neg hguard]
  dsimp only
  rw [hno]
  exact padLoop_empty_err _ u pick _ _ _ (by omega)

theorem generate_name_error (N : ℕ) (df : List CategoryRow)
    (ranges : List RangeRow) (factors : List FactorRow)
    (u : ℕ → ℚ → ℚ → ℚ) (pick : ℕ → ℕ)
    (hguard : ¬(df ≠ [] ∧ totalShips df = 0))
    (hsome : panamaxRanges ranges ≠ [])
    (hben : (mainLoop ranges factors u (df.zip (allocations df N))).2.1 = none)
    (hshort : (mainLoop ranges factors u (df.zip (allocations df N))).2.2.length < N) :
    generate_ship_data N df ranges factors u pick = .error .nameErrorBenefit := by
  unfold generate_ship_data
  rw [if_neg hguard]
  dsimp only
  rw [hben]
  exact padLoop_none_err _ u pick _ _ _ (by omega) hsome

theorem generate_empty_table_pos (N : ℕ) (ranges : List RangeRow)
    (factors : List FactorRow) (u : ℕ → ℚ → ℚ → ℚ) (pick : ℕ → ℕ)
    (hN : 0 < N) :
    ∃ e, generate_ship_data N [] ranges factors u pick = .error e := by
  unfold generate_ship_data
  rw [if_neg (by simp)]
  dsimp only
  show ∃ e, padLoop (panamaxRanges ranges) none u pick 0 (N - 0) [] = .error e
  by_cases hpr : panamaxRanges ranges = []
  · refine ⟨.paddingExhausted, ?_⟩
    rw [hpr]
    exact padLoop_empty_err none u pick 0 _ [] (by omega)
  · exact ⟨.nameErrorBenefit, padLoop_none_err _ u pick 0 _ [] (by omega) hpr⟩

/-! ### Invariants of the sampler-produced records -/

theorem mainLoop_range_containment (ranges : List RangeRow)
    (factors : List FactorRow) (u : ℕ → ℚ → ℚ → ℚ)
    (rows : List (CategoryRow × ℤ))
    (hu : ∀ (n : ℕ) (lo hi : ℚ), lo ≤ hi → lo ≤ u n lo hi ∧ u n lo hi ≤ hi)
    (hranges : ∀ rr ∈ ranges, rr.minLength ≤ rr.maxLength ∧
      centAligned rr.minLength ∧ centAligned rr.maxLength) :
    ∀ rec ∈ (mainLoop ranges factors u rows).2.2, recordInRange ranges rec := by
  refine mainLoop_inv ranges factors u (recordInRange ranges) ?_ rows
  intro f canal rr ctr k stype rec hf hfr hin
  obtain ⟨hst, hcn, ⟨j, hlen⟩, hben⟩ := emitRecords_mem u ctr k stype canal
    rr.minLength rr.maxLength (weightedScore f) rec hin
  obtain ⟨hmem, hst', hcn'⟩ := findRange_mem ranges stype canal rr hfr
  obtain ⟨hminmax, hcmin, hcmax⟩ := hranges rr hmem
  obtain ⟨hlo, hhi⟩ := hu (ctr + j) rr.minLength rr.maxLength hminmax
  refine ⟨rr, hmem, by rw [hst', hst], by rw [hcn', hcn], ?_, ?_⟩
  · rw [hlen]
    calc rr.minLength = round2 rr.minLength := (round2_eq_of_centAligned hcmin).symm
      _ ≤ round2 (u (ctr + j) rr.minLength rr.maxLength) := round2_mono hlo
  · rw [hlen]
    calc round2 (u (ctr + j) rr.minLength rr.maxLength)
        ≤ round2 rr.maxLength := round2_mono hhi
      _ = rr.maxLength := round2_eq_of_centAligned hcmax

theorem mainLoop_benefit_inv (ranges : List RangeRow) (factors : List FactorRow)
    (u : ℕ → ℚ → ℚ → ℚ) (rows : List (CategoryRow × ℤ)) :
    ∀ rec ∈ (mainLoop ranges factors u rows).2.2, recordBenefitOf factors rec := by
  refine mainLoop_inv ranges factors u (recordBenefitOf factors) ?_ rows
  intro f canal rr ctr k stype rec hf hfr hin
  obtain ⟨hst, _, _, hben⟩ := emitRecords_mem u ctr k stype canal
    rr.minLength rr.maxLength (weightedScore f) rec hin
  exact ⟨f, by rw [hst]; exact hf, hben⟩

/-! ### Claim theorems -/

/-- C1 (amended): whenever `generate_ship_data` returns a result (rather
than failing with one of its error modes), the returned sequence has
length exactly `N`, for every `N ≥ 0` and every Category Counts table with
non-negative counts.  The original claim, which asserted an `N`-length
result unconditionally, fails because lookup misses can force the padding
step into an error instead of a result (see the counterexample). -/
theorem C1_ok_length (N : ℕ) (df : List CategoryRow) (ranges : List RangeRow)
    (factors : List FactorRow) (u : ℕ → ℚ → ℚ → ℚ) (pick : ℕ → ℕ)
    (res : List OutputRecord)
    (hcounts : ∀ r ∈ df, 0 ≤ r.neoPanamax ∧ 0 ≤ r.panamax)
    (hres : generate_ship_data N df ranges factors u pick = .ok res) :
    res.length = N :=
  generate_ok_length N df ranges factors u pick res hcounts hres

/-- Witness for C1: a complete run with one category producing exactly one
record. -/
theorem C1_ok_length_witness :
    ([⟨"A", "NeoPanamax", (5 : ℚ), (1 : ℚ)⟩] : List OutputRecord).length = 1 :=
  C1_ok_length 1 [⟨"A", 1, 0⟩] [⟨"A", "NeoPanamax", 5, 6⟩] [⟨"A", 1, 1, 1, 1⟩]
    (fun _ lo _ => lo) (fun _ => 0) [⟨"A", "NeoPanamax", 5, 1⟩]
    (by decide) (by decide)

/-- Counterexample to C1 as stated: a non-empty Category Counts table and
`N = 1`, but the factor table has no matching row and the range table has
no Panamax row, so the run fails during padding instead of returning a
1-element sequence. -/
theorem C1_counterexample :
    generate_ship_data 1 [⟨"A", 1, 0⟩] [] [] (fun _ lo _ => lo) (fun _ => 0)
      = .error .paddingExhausted := by decide

/-- C2 (amended): for every Category Counts table whose grand total is
nonzero and every sample size `N`, the per-category allocations after the
remainder correction sum to exactly `N`.  The original claim, stated for
every non-empty table, fails when all counts are zero: the `0/0`
proportions are NaN and the integer cast at line 44 raises before any
allocation exists (see the counterexample). -/
theorem C2_allocations_sum (df : List CategoryRow) (N : ℕ)
    (hT : totalShips df ≠ 0) : (allocations df N).sum = N :=
  allocations_sum df N hT

/-- Witness for C2 at a concrete two-category table and `N = 5`. -/
theorem C2_allocations_sum_witness :
    totalShips [⟨"A", 1, 2⟩, ⟨"B", 2, 0⟩] ≠ 0 ∧
      (allocations [⟨"A", 1, 2⟩, ⟨"B", 2, 0⟩] 5).sum = 5 :=
  ⟨by decide, C2_allocations_sum [⟨"A", 1, 2⟩, ⟨"B", 2, 0⟩] 5 (by decide)⟩

/-- Counterexample to C2 as stated: a non-empty table whose only category
has zero counts makes the whole run fail (NaN-to-int cast), so no
allocations summing to `N` exist. -/
theorem C2_counterexample :
    generate_ship_data 1 [⟨"A", 0, 0⟩] [] [] (fun _ lo _ => lo) (fun _ => 0)
      = .error .intCastNaN := by decide

/-- C3 (amended): the provisional allocation is
`round(proportion * N)` where `round` is banker's rounding (ties to the
nearest even integer, the behaviour of `numpy.round`): whenever
`proportion * N` is exactly halfway between two integers, the provisional
allocation is the even one of the two neighbours — not the one farther
from zero, as the original claim asserted (see the counterexample). -/
theorem C3_half_rounds_to_even (df : List CategoryRow) (N : ℕ) (i : ℕ)
    (hi : i < df.length)
    (hhalf : proportionOf df (df.getD i defaultCategory) * N
      - (⌊proportionOf df (df.getD i defaultCategory) * N⌋ : ℚ) = 1/2) :
    Even ((provisionalSizes df N).getD i 0) ∧
      ((provisionalSizes df N).getD i 0
          = ⌊proportionOf df (df.getD i defaultCategory) * N⌋ ∨
        (provisionalSizes df N).getD i 0
          = ⌊proportionOf df (df.getD i defaultCategory) * N⌋ + 1) := by
  rw [provisional_getD df N i hi]
  exact roundHalfEven_even_of_half hhalf

/-- Witness for C3: two categories of proportion `1/2` and `N = 1` put the
first provisional allocation exactly at the half point, and it is even. -/
theorem C3_half_rounds_to_even_witness :
    proportionOf [⟨"A", 1, 1⟩, ⟨"B", 1, 1⟩]
        (([⟨"A", 1, 1⟩, ⟨"B", 1, 1⟩] : List CategoryRow).getD 0 defaultCategory) * (1 : ℕ)
      - (⌊proportionOf [⟨"A", 1, 1⟩, ⟨"B", 1, 1⟩]
          (([⟨"A", 1, 1⟩, ⟨"B", 1, 1⟩] : List CategoryRow).getD 0 defaultCategory) * (1 : ℕ)⌋ : ℚ)
        = 1/2 ∧
    Even ((provisionalSizes [⟨"A", 1, 1⟩, ⟨"B", 1, 1⟩] 1).getD 0 0) :=
  ⟨by decide,
   (C3_half_rounds_to_even [⟨"A", 1, 1⟩, ⟨"B", 1, 1⟩] 1 0 (by decide) (by decide)).1⟩

/-- Counterexample to C3 as stated: with two equal categories and `N = 1`
the first proportion times `N` is exactly `1/2` (halfway between 0 and 1;
the integer farther from zero is 1), but both provisional allocations are
0 — the code rounds the half down to the even neighbour. -/
theorem C3_counterexample :
    proportionOf [⟨"A", 1, 1⟩, ⟨"B", 1, 1⟩]
        (([⟨"A", 1, 1⟩, ⟨"B", 1, 1⟩] : List CategoryRow).getD 0 defaultCategory)
        * ((1 : ℕ) : ℚ) = 1/2 ∧
      provisionalSizes [⟨"A", 1, 1⟩, ⟨"B", 1, 1⟩] 1 = [0, 0] := by decide

/-- C4 (confirmed): the NeoPanamax sub-allocation is
`round(allocation * countA / total)` when `total > 0` and `0` otherwise,
and the Panamax sub-allocation is obtained by subtraction, so the two
sub-allocations sum to the category's allocation exactly (invariant I3),
for every category row and every allocation. -/
theorem C4_suballocation_split (r : CategoryRow) (a : ℤ) :
    (0 < totalOf r →
      neoSampleSize r a = roundHalfEven ((a : ℚ) * (r.neoPanamax / totalOf r))) ∧
    (¬0 < totalOf r → neoSampleSize r a = 0) ∧
    neoSampleSize r a + panamaxSampleSize r a = a := by
  refine ⟨?_, ?_, ?_⟩
  · intro h
    unfold neoSampleSize
    rw [if_pos h]
  · intro h
    unfold neoSampleSize
    rw [if_neg h, mul_zero]
    decide
  · unfold panamaxSampleSize
    ring

/-- Witness for C4 at a concrete row and allocation. -/
theorem C4_suballocation_split_witness :
    0 < totalOf ⟨"A", 3, 7⟩ ∧
      neoSampleSize ⟨"A", 3, 7⟩ 5 + panamaxSampleSize ⟨"A", 3, 7⟩ 5 = 5 :=
  ⟨by decide, (C4_suballocation_split ⟨"A", 3, 7⟩ 5).2.2⟩

/-- C5 (amended): on a zero-row Category Counts table the function does
NOT fail with a dedicated empty-input error: with `sample_size = 0` it
returns an empty result successfully, and with `sample_size > 0` it fails
only later, inside the padding loop (with the empty-sample error or the
unbound-`benefit` error, depending on the range table).  The original
claim asserted a dedicated `EmptyInputError`, which the code does not
implement (see the counterexample, where the call succeeds). -/
theorem C5_empty_table (N : ℕ) (ranges : List RangeRow) (factors : List FactorRow)
    (u : ℕ → ℚ → ℚ → ℚ) (pick : ℕ → ℕ) :
    (N = 0 → generate_ship_data N [] ranges factors u pick = .ok []) ∧
    (0 < N → ∃ e, generate_ship_data N [] ranges factors u pick = .error e) := by
  constructor
  · intro h
    subst h
    rfl
  · intro hN
    exact generate_empty_table_pos N ranges factors u pick hN

/-- Witness for C5: on the empty table with `N = 1` the run fails with
some error. -/
theorem C5_empty_table_witness :
    ∃ e, generate_ship_data 1 [] [] [] (fun _ lo _ => lo) (fun _ => 0) = .error e :=
  (C5_empty_table 1 [] [] (fun _ lo _ => lo) (fun _ => 0)).2 (by decide)

/-- Counterexample to C5 as stated: a zero-row table with `N = 0` makes
`generate_ship_data` return successfully — it does not fail with any
error, let alone an `EmptyInputError`. -/
theorem C5_counterexample :
    generate_ship_data 0 [] [] [] (fun _ lo _ => lo) (fun _ => 0) = .ok [] := by
  decide

/-- C6 (confirmed): if the Length Ranges table has no row whose Canal is
the fallback label "Panamax" and the per-category loop under-produced
(so the padding step is entered), `generate_ship_data` terminates with the
padding-exhausted failure — the `ValueError` that pandas `.sample(1)`
raises on an empty selection, the condition the spec names
`PaddingExhaustedError` — rather than looping forever. -/
theorem C6_padding_exhausted (N : ℕ) (df : List CategoryRow)
    (ranges : List RangeRow) (factors : List FactorRow)
    (u : ℕ → ℚ → ℚ → ℚ) (pick : ℕ → ℕ)
    (hguard : ¬(df ≠ [] ∧ totalShips df = 0))
    (hno : panamaxRanges ranges = [])
    (hshort : (mainLoop ranges factors u (df.zip (allocations df N))).2.2.length < N) :
    generate_ship_data N df ranges factors u pick = .error .paddingExhausted :=
  generate_padding_exhausted N df ranges factors u pick hguard hno hshort

/-- Witness for C6: one category, no range rows at all, `N = 1`. -/
theorem C6_padding_exhausted_witness :
    generate_ship_data 1 [⟨"B", 2, 0⟩] [] [] (fun _ lo _ => lo) (fun _ => 0)
      = .error .paddingExhausted :=
  C6_padding_exhausted 1 [⟨"B", 2, 0⟩] [] [] (fun _ lo _ => lo) (fun _ => 0)
    (by decide) (by decide) (by decide)

/-- C7 (amended): every record produced by the Length Sampler (a
non-padded draw) lies within `[min, max]` of its matched range row,
provided the sampler draws inside `[min, max]` and the range bounds are
whole numbers of hundredths (so that rounding to 2 decimals cannot cross
them).  The original unconditional claim is false: rounding a draw to 2
decimals can push it outside a range whose bounds are not 2-decimal
aligned (see the counterexample). -/
theorem C7_range_containment (ranges : List RangeRow) (factors : List FactorRow)
    (u : ℕ → ℚ → ℚ → ℚ) (rows : List (CategoryRow × ℤ))
    (hu : ∀ (n : ℕ) (lo hi : ℚ), lo ≤ hi → lo ≤ u n lo hi ∧ u n lo hi ≤ hi)
    (hranges : ∀ rr ∈ ranges, rr.minLength ≤ rr.maxLength ∧
      centAligned rr.minLength ∧ centAligned rr.maxLength) :
    ∀ rec ∈ (mainLoop ranges factors u rows).2.2, recordInRange ranges rec :=
  mainLoop_range_containment ranges factors u rows hu hranges

/-- Witness for C7: a one-category run whose single record lies inside its
matched range row. -/
theorem C7_range_containment_witness :
    recordInRange [⟨"A", "NeoPanamax", 5, 6⟩] ⟨"A", "NeoPanamax", 5, 1⟩ :=
  C7_range_containment [⟨"A", "NeoPanamax", 5, 6⟩] [⟨"A", 1, 1, 1, 1⟩]
    (fun _ lo _ => lo) [(⟨"A", 1, 0⟩, 1)]
    (fun _ lo _ h => ⟨le_refl lo, h⟩) (by decide)
    ⟨"A", "NeoPanamax", 5, 1⟩ (by decide)

/-- Counterexample to C7 as stated: the range row is
`[1.006, 1.007]`, the draw is `1.007` (inside the range), but rounding to
2 decimals produces `1.01`, which exceeds the row's maximum. -/
theorem C7_counterexample :
    generate_ship_data 1 [⟨"A", 1, 0⟩] [⟨"A", "NeoPanamax", 1006/1000, 1007/1000⟩]
        [⟨"A", 1, 1, 1, 1⟩] (fun _ _ hi => hi) (fun _ => 0)
      = .ok [⟨"A", "NeoPanamax", 101/100, 1⟩] ∧
      (1006 : ℚ)/1000 ≤ 1007/1000 ∧ (1007 : ℚ)/1000 < 101/100 := by decide

/-- C8 (amended): any two records produced by the Length Sampler (the
per-category loop, i.e. non-padded records) that carry the same category
label carry identical benefit values.  The original claim, over the whole
output, is false: a padded record is labelled "Panamax" but carries the
benefit left over from the last processed category, which can differ from
the benefit of a real category named "Panamax" (see the counterexample). -/
theorem C8_sampler_benefit (ranges : List RangeRow) (factors : List FactorRow)
    (u : ℕ → ℚ → ℚ → ℚ) (rows : List (CategoryRow × ℤ))
    (rec1 rec2 : OutputRecord)
    (h1 : rec1 ∈ (mainLoop ranges factors u rows).2.2)
    (h2 : rec2 ∈ (mainLoop ranges factors u rows).2.2)
    (hst : rec1.shipType = rec2.shipType) : rec1.benefit = rec2.benefit := by
  obtain ⟨f1, hf1, hb1⟩ := mainLoop_benefit_inv ranges factors u rows rec1 h1
  obtain ⟨f2, hf2, hb2⟩ := mainLoop_benefit_inv ranges factors u rows rec2 h2
  rw [hst] at hf1
  have hff := hf1.symm.trans hf2
  injection hff with hff
  rw [hb1, hb2, hff]

/-- Witness for C8: the two records of a single category share one
benefit. -/
theorem C8_sampler_benefit_witness :
    (⟨"A", "NeoPanamax", 5, 1⟩ : OutputRecord).benefit
      = (⟨"A", "Panamax", 2, 1⟩ : OutputRecord).benefit :=
  C8_sampler_benefit [⟨"A", "NeoPanamax", 5, 6⟩, ⟨"A", "Panamax", 2, 3⟩]
    [⟨"A", 1, 1, 1, 1⟩] (fun _ lo _ => lo) [(⟨"A", 1, 1⟩, 2)]
    ⟨"A", "NeoPanamax", 5, 1⟩ ⟨"A", "Panamax", 2, 1⟩
    (by decide) (by decide) (by decide)

/-- Counterexample to C8 as stated: the real category named "Panamax" has
benefit 1, the last processed category ("Zzz", whose range rows are
missing) has benefit 2; the padding step emits a record labelled
"Panamax" carrying benefit 2, so two output records share the label
"Panamax" with different benefits. -/
theorem C8_counterexample :
    generate_ship_data 2 [⟨"Panamax", 0, 1⟩, ⟨"Zzz", 1, 0⟩]
        [⟨"Panamax", "Panamax", 10, 10⟩]
        [⟨"Panamax", 1, 1, 1, 1⟩, ⟨"Zzz", 2, 2, 2, 2⟩]
        (fun _ lo _ => lo) (fun _ => 0)
      = .ok [⟨"Panamax", "Panamax", 10, 1⟩, ⟨"Panamax", "Panamax", 10, 2⟩] ∧
      (⟨"Panamax", "Panamax", 10, 1⟩ : OutputRecord).shipType
        = (⟨"Panamax", "Panamax", 10, 2⟩ : OutputRecord).shipType ∧
      (⟨"Panamax", "Panamax", 10, 1⟩ : OutputRecord).benefit
        ≠ (⟨"Panamax", "Panamax", 10, 2⟩ : OutputRecord).benefit := by decide

/-- C9 (amended): a category with both counts zero never divides by zero
in the sub-stratifier — its ratios default to 0, so the NeoPanamax
sub-allocation is 0 and the Panamax sub-allocation is its full
allocation.  However, "never causes an error anywhere" requires the grand
total to be nonzero: if ALL categories have zero totals (a non-empty
table), the run fails at the proportions step with the NaN-to-int cast
error before any sub-allocation is computed (see the counterexample). -/
theorem C9_zero_total (r : CategoryRow) (a : ℤ) (h : totalOf r = 0) :
    neoSampleSize r a = 0 ∧ panamaxSampleSize r a = a := by
  have hnot : ¬0 < totalOf r := by
    rw [h]
    exact lt_irrefl 0
  constructor
  · unfold neoSampleSize
    rw [if_neg hnot, mul_zero]
    decide
  · unfold panamaxSampleSize neoSampleSize
    rw [if_neg hnot, mul_zero]
    have h0 : roundHalfEven 0 = 0 := by decide
    rw [h0]
    ring

/-- Witness for C9 at a concrete zero-count row with allocation 7. -/
theorem C9_zero_total_witness :
    totalOf ⟨"Z", 0, 0⟩ = 0 ∧ neoSampleSize ⟨"Z", 0, 0⟩ 7 = 0 ∧
      panamaxSampleSize ⟨"Z", 0, 0⟩ 7 = 7 :=
  ⟨by decide, (C9_zero_total ⟨"Z", 0, 0⟩ 7 (by decide)).1,
    (C9_zero_total ⟨"Z", 0, 0⟩ 7 (by decide)).2⟩

/-- Counterexample to C9 as stated: a table whose only category has zero
counts makes the run fail — the zero-total category does cause a (cast)
error rooted in the `0/0` proportion, and no sub-allocations are
produced. -/
theorem C9_counterexample :
    generate_ship_data 2 [⟨"Z", 0, 0⟩] [] [] (fun _ lo _ => lo) (fun _ => 0)
      = .error .intCastNaN := by decide

/-- C10 (amended): if the per-category loop never assigned the `benefit`
local (no category had both a nonzero allocation and a matching Benefit
Factors row), the padding step — when entered — raises the
unbound-variable `NameError` instead of returning `N` records, PROVIDED
the Length Ranges table has at least one Panamax row; without such a row
the empty-sample error fires first, because line 154's `.sample(1)` runs
before line 166 reads `benefit` (see the counterexample). -/
theorem C10_unbound_benefit (N : ℕ) (df : List CategoryRow)
    (ranges : List RangeRow) (factors : List FactorRow)
    (u : ℕ → ℚ → ℚ → ℚ) (pick : ℕ → ℕ)
    (hguard : ¬(df ≠ [] ∧ totalShips df = 0))
    (hsome : panamaxRanges ranges ≠ [])
    (hben : (mainLoop ranges factors u (df.zip (allocations df N))).2.1 = none)
    (hshort : (mainLoop ranges factors u (df.zip (allocations df N))).2.2.length < N) :
    generate_ship_data N df ranges factors u pick = .error .nameErrorBenefit :=
  generate_name_error N df ranges factors u pick hguard hsome hben hshort

/-- Witness for C10: a category with no factor row, one Panamax range row,
`N = 1`. -/
theorem C10_unbound_benefit_witness :
    generate_ship_data 1 [⟨"A", 1, 0⟩] [⟨"X", "Panamax", 0, 1⟩] []
        (fun _ lo _ => lo) (fun _ => 0)
      = .error .nameErrorBenefit :=
  C10_unbound_benefit 1 [⟨"A", 1, 0⟩] [⟨"X", "Panamax", 0, 1⟩] []
    (fun _ lo _ => lo) (fun _ => 0)
    (by decide) (by decide) (by decide) (by decide)

/-- Counterexample to C10 as stated: benefit is never computed and the
padding loop is entered, but with no Panamax range row the failure is the
empty-sample (padding-exhausted) error, not the unbound-variable error. -/
theorem C10_counterexample :
    generate_ship_data 2 [⟨"C", 3, 0⟩] [] [] (fun _ lo _ => lo) (fun _ => 0)
      = .error .paddingExhausted := by decide
